import Mathlib

/-!
Verification development for the convolution engine of `src/src/linear/convolution.cpp`.

The embedding is shallow: sample values and filter coefficients are modelled as
rationals (exact arithmetic standing in for the promoted floating-point type;
"within floating-point tolerance" becomes exact equality), `dip::uint` is
modelled as `Nat` with explicit wrap-around modulo `2^64` where the source's
unsigned arithmetic can wrap, and fallible construction returns `Except`.
External collaborators (the per-line framework engine, `dip::Uniform`,
`dip::Image` internals) are modelled from the specification where their code is
not among the shown sources; each such definition carries a doc comment
starting with "Modelled from the spec:".
-/

namespace DiplibConv

/-- The five symmetry kinds of `FilterSymmetry` in `convolution.cpp`. -/
inductive FilterSymmetry where
  | GENERAL
  | EVEN
  | ODD
  | D_EVEN
  | D_ODD
deriving DecidableEq, Repr, Inhabited

/-- `dip::OneDimensionalFilter`: coefficient list, symmetry string and signed
origin (negative means unspecified). -/
structure OneDimensionalFilter where
  filter : List ℚ
  symmetry : String
  origin : ℤ
deriving DecidableEq, Repr

/-- `InternOneDimensionalFilter`: the normalized filter. `size` is the logical
(expanded) size, `origin` an index into the logical filter. -/
structure InternOneDimensionalFilter where
  filter : List ℚ
  size : ℕ
  origin : ℕ
  symmetry : FilterSymmetry
deriving DecidableEq, Repr

instance : Inhabited InternOneDimensionalFilter := ⟨⟨[], 0, 0, .GENERAL⟩⟩

/-- The symmetry branch of the normalizing constructor (lines 47-63): maps the
symmetry string to its tag and expands the stored size into the logical size,
throwing on an unrecognized string. -/
def symmetrySize (symmetry : String) (size0 : ℕ) : Except String (FilterSymmetry × ℕ) :=
  if symmetry = "" ∨ symmetry = "general" then
    .ok (.GENERAL, size0)
  else if symmetry = "even" then
    .ok (.EVEN, size0 + size0 - 1)
  else if symmetry = "odd" then
    .ok (.ODD, size0 + size0 - 1)
  else if symmetry = "d-even" then
    .ok (.D_EVEN, size0 + size0)
  else if symmetry = "d-odd" then
    .ok (.D_ODD, size0 + size0)
  else
    .error ("Symmetry string not recognized: " ++ symmetry)

/-- The constructor `InternOneDimensionalFilter::InternOneDimensionalFilter`
(`convolution.cpp` lines 44-71): expands symmetry into the logical size
(`symmetrySize`), resolves the origin, and throws on an unrecognized symmetry
string or an out-of-range origin.  When the coefficient list is empty
(`size == 0`) the whole body is skipped and the default members (size 0,
origin 0, GENERAL) are kept. -/
def internOneDimensionalFilter (inf : OneDimensionalFilter) :
    Except String InternOneDimensionalFilter :=
  if inf.filter.length = 0 then
    .ok ⟨inf.filter, 0, 0, .GENERAL⟩
  else
    match symmetrySize inf.symmetry inf.filter.length with
    | .error e => .error e
    | .ok (sym, size) =>
      if inf.origin < 0 then
        .ok ⟨inf.filter, size, size / 2, sym⟩
      else
        let origin := inf.origin.toNat
        if origin ≥ size then .error "Origin outside of filter"
        else .ok ⟨inf.filter, size, origin, sym⟩

/-- The logical (expanded) size an input filter spec receives, per the
symmetry branch of the normalizer. -/
def logicalSize (inf : OneDimensionalFilter) : ℕ :=
  if inf.symmetry = "even" ∨ inf.symmetry = "odd" then
    inf.filter.length + inf.filter.length - 1
  else if inf.symmetry = "d-even" ∨ inf.symmetry = "d-odd" then
    inf.filter.length + inf.filter.length
  else
    inf.filter.length

/-- The set of symmetry strings the normalizer recognizes (the empty string
defaults to GENERAL). -/
def recognizedSymmetry (s : String) : Prop :=
  s = "" ∨ s = "general" ∨ s = "even" ∨ s = "odd" ∨ s = "d-even" ∨ s = "d-odd"

instance (s : String) : Decidable (recognizedSymmetry s) := by
  unfold recognizedSymmetry; infer_instance

/-- The origin of a normalized filter, when normalization succeeded. -/
def normOrigin (r : Except String InternOneDimensionalFilter) : Option ℕ :=
  match r with
  | .ok f => some f.origin
  | .error _ => none

/-- The logical size of a normalized filter, when normalization succeeded. -/
def normSize (r : Except String InternOneDimensionalFilter) : Option ℕ :=
  match r with
  | .ok f => some f.size
  | .error _ => none

/-!
## The separable line filter (`SeparableConvolutionLineFilter::Filter`)

One boundary-extended input line is a total function `x : ℤ → ℚ` (the framework
guarantees indices `[-border, length-1+border]` relative to line start are
valid; the line filter just dereferences).  Each definition below renders one
`case` of the `switch` on the filter's symmetry, with the pointer arithmetic of
the source turned into index arithmetic: the output sample at index `ii` reads
input samples relative to `ii`.  The source's in-order floating-point
accumulation is rendered as a `Finset.range` sum, which in exact arithmetic
computes the same value.  `origin - fsh` is computed in `dip::uint` and cast to
`dip::sint` in the source, which on the 64-bit two's-complement targets the
library supports equals the integer difference; origins are therefore taken
here as integers. -/

/-- `case FilterSymmetry::GENERAL`: `out[ii] = Σ_{jj<size} filter[jj] *
x[ii + origin - jj]` (the input pointer walks backward). -/
def generalFilterLine (filter : List ℚ) (origin : ℤ) (x : ℤ → ℚ) (ii : ℤ) : ℚ :=
  ∑ jj ∈ Finset.range filter.length, filter.getD jj 0 * x (ii + origin - (jj : ℤ))

/-- `case FilterSymmetry::EVEN` (odd logical size, half filter `c`,
`fsh = c.length - 1`, base `b = ii + origin - fsh`): center tap plus
mirror-paired taps added. -/
def evenFilterLine (c : List ℚ) (origin : ℤ) (x : ℤ → ℚ) (ii : ℤ) : ℚ :=
  c.getD (c.length - 1) 0 * x (ii + origin - ((c.length - 1 : ℕ) : ℤ)) +
    ∑ k ∈ Finset.range (c.length - 1),
      c.getD (c.length - 1 - 1 - k) 0 *
        (x (ii + origin - ((c.length - 1 : ℕ) : ℤ) + ((k : ℤ) + 1)) +
         x (ii + origin - ((c.length - 1 : ℕ) : ℤ) - ((k : ℤ) + 1)))

/-- `case FilterSymmetry::ODD`: as EVEN but the paired taps are subtracted. -/
def oddFilterLine (c : List ℚ) (origin : ℤ) (x : ℤ → ℚ) (ii : ℤ) : ℚ :=
  c.getD (c.length - 1) 0 * x (ii + origin - ((c.length - 1 : ℕ) : ℤ)) +
    ∑ k ∈ Finset.range (c.length - 1),
      c.getD (c.length - 1 - 1 - k) 0 *
        (x (ii + origin - ((c.length - 1 : ℕ) : ℤ) + ((k : ℤ) + 1)) -
         x (ii + origin - ((c.length - 1 : ℕ) : ℤ) - ((k : ℤ) + 1)))

/-- `case FilterSymmetry::D_EVEN` (even logical size, half filter `c`): no
center tap; pair `t` reads `x[b + t] + x[b - 1 - t]` with
`b = ii + origin - (c.length - 1)`. -/
def dEvenFilterLine (c : List ℚ) (origin : ℤ) (x : ℤ → ℚ) (ii : ℤ) : ℚ :=
  ∑ t ∈ Finset.range c.length,
    c.getD (c.length - 1 - t) 0 *
      (x (ii + origin - ((c.length - 1 : ℕ) : ℤ) + (t : ℤ)) +
       x (ii + origin - ((c.length - 1 : ℕ) : ℤ) - 1 - (t : ℤ)))

/-- `case FilterSymmetry::D_ODD`: as D_EVEN but the pairs are subtracted. -/
def dOddFilterLine (c : List ℚ) (origin : ℤ) (x : ℤ → ℚ) (ii : ℤ) : ℚ :=
  ∑ t ∈ Finset.range c.length,
    c.getD (c.length - 1 - t) 0 *
      (x (ii + origin - ((c.length - 1 : ℕ) : ℤ) + (t : ℤ)) -
       x (ii + origin - ((c.length - 1 : ℕ) : ℤ) - 1 - (t : ℤ)))

/-!
## Full explicit filters corresponding to each half-representation

A mirror-symmetric odd-length filter is exactly the expansion of its left half
(including the center tap, which is the last entry of the half list); these are
the "corresponding full, explicit filters" of the doctest in the source. -/

/-- The odd-length, mirror-symmetric expansion of an EVEN half filter. -/
def expandEven (c : List ℚ) : List ℚ := c ++ c.dropLast.reverse

/-- The odd-length, antisymmetric expansion of an ODD half filter. -/
def expandOdd (c : List ℚ) : List ℚ := c ++ (c.dropLast.reverse.map (fun a => -a))

/-- The even-length, mirror-symmetric expansion of a D_EVEN half filter. -/
def expandDEven (c : List ℚ) : List ℚ := c ++ c.reverse

/-- The even-length, antisymmetric expansion of a D_ODD half filter. -/
def expandDOdd (c : List ℚ) : List ℚ := c ++ (c.reverse.map (fun a => -a))

/-!
## The separable convolution orchestrator (`dip::SeparableConvolution`)
-/

/-- The modulus of `dip::uint` (64-bit `size_t`): `2 ^ 64`. -/
def UINT_MOD : ℕ := 18446744073709551616

/-- Subtraction of `dip::uint` operands (both below `UINT_MOD`), wrapping
around like the source's unsigned arithmetic. -/
def usub (a b : ℕ) : ℕ := (a + UINT_MOD - b % UINT_MOD) % UINT_MOD

/-- The per-dimension border computation of `SeparableConvolution`
(lines 222-224 and 228-230): `b = origin; b = max(b, sz - b - 1)` in
`dip::uint` arithmetic. -/
def borderOfFilter (f : InternOneDimensionalFilter) : ℕ :=
  max f.origin (usub (usub f.size f.origin) 1)

/-- Lines 220-233: the `border` array.  A single (broadcast) filter fills
every dimension with the same scalar; otherwise each dimension gets the
border of its own filter. -/
def computeBorder (nDims : ℕ) (filterData : List InternOneDimensionalFilter) : List ℕ :=
  if filterData.length = 1 then
    List.replicate nDims (borderOfFilter (filterData.getD 0 default))
  else
    (List.range nDims).map (fun ii => borderOfFilter (filterData.getD ii default))

/-- `IsMeaninglessFilter` (lines 195-197): logical size 0, or logical size 1
with a unit coefficient. -/
def IsMeaninglessFilter (f : InternOneDimensionalFilter) : Prop :=
  f.size = 0 ∨ (f.size = 1 ∧ f.filter.getD 0 0 = 1)

instance (f : InternOneDimensionalFilter) : Decidable (IsMeaninglessFilter f) := by
  unfold IsMeaninglessFilter; infer_instance

/-- Lines 213-218: normalize every entry of the filter array in order,
aborting on the first failure. -/
def normalizeFilterArray :
    List OneDimensionalFilter → Except String (List InternOneDimensionalFilter)
  | [] => .ok []
  | f :: rest =>
    match internOneDimensionalFilter f with
    | .error e => .error e
    | .ok nf =>
      match normalizeFilterArray rest with
      | .error e => .error e
      | .ok tl => .ok (nf :: tl)

/-- Lines 235-239: an empty `process` array defaults to "process all
dimensions"; otherwise its length must match the dimensionality. -/
def resolveProcess (process : List Bool) (nDims : ℕ) : Except String (List Bool) :=
  if process.isEmpty then .ok (List.replicate nDims true)
  else if process.length ≠ nDims then .error "Array parameter has wrong length"
  else .ok process

/-- Lines 240-251: elision of no-op work.  With a single broadcast filter, a
meaningless filter clears every process flag; with one filter per dimension,
a dimension is cleared when its filter is meaningless or the input extent
along it is at most 1. -/
def elideProcess (filterData : List InternOneDimensionalFilter) (sizes : List ℕ)
    (process : List Bool) : List Bool :=
  if filterData.length = 1 then
    if IsMeaninglessFilter (filterData.getD 0 default) then
      List.replicate process.length false
    else process
  else
    (List.range process.length).map (fun ii =>
      if IsMeaninglessFilter (filterData.getD ii default) ∨ sizes.getD ii 0 ≤ 1 then false
      else process.getD ii false)

/-- An N-dimensional image: forged flag, per-dimension extents, and sample
data as a total function on integer coordinate vectors. -/
structure NDImage where
  forged : Bool
  sizes : List ℕ
  data : List ℤ → ℚ

/-- A boundary condition as consumed by the external engine: it turns one
line (as a total function; only indices `0..length-1` are meaningful) into
the boundary-extended line the line filter dereferences. -/
def BoundaryExtension : Type := (ℤ → ℚ) → ℕ → (ℤ → ℚ)

/-- Lines 87-96 of the line filter: with more than one filter the current
processing dimension selects the filter, otherwise entry 0 is used for every
dimension.  (The `tensorToSpatial` adjustment concerns the framework's
tensor-axis convention and is outside this scalar model.) -/
def filterForDim (filterData : List InternOneDimensionalFilter) (procDim : ℕ) :
    InternOneDimensionalFilter :=
  if 1 < filterData.length then filterData.getD procDim default
  else filterData.getD 0 default

/-- The `switch` of `SeparableConvolutionLineFilter::Filter`, dispatching on
the normalized filter's symmetry. -/
def applyFilterLine (f : InternOneDimensionalFilter) (x : ℤ → ℚ) (ii : ℤ) : ℚ :=
  match f.symmetry with
  | .GENERAL => generalFilterLine f.filter (f.origin : ℤ) x ii
  | .EVEN => evenFilterLine f.filter (f.origin : ℤ) x ii
  | .ODD => oddFilterLine f.filter (f.origin : ℤ) x ii
  | .D_EVEN => dEvenFilterLine f.filter (f.origin : ℤ) x ii
  | .D_ODD => dOddFilterLine f.filter (f.origin : ℤ) x ii

/-- Modelled from the spec: one pass of the external per-line engine
(`Framework::Separable`, not among the shown sources) along dimension `d`:
every line along `d` is read through the boundary extension and replaced by
the line filter's output. -/
def enginePass (filterData : List InternOneDimensionalFilter) (bc : BoundaryExtension)
    (d : ℕ) (img : NDImage) : NDImage :=
  { img with data := fun coord =>
      (applyFilterLine (filterForDim filterData d)
        (bc (fun t => img.data (coord.set d t)) (img.sizes.getD d 0))
        (coord.getD d 0)) }

/-- Modelled from the spec: the external per-line engine processes, in order,
each dimension whose process flag is set; other dimensions are untouched. -/
def separableEngine (filterData : List InternOneDimensionalFilter) (bc : BoundaryExtension)
    (process : List Bool) (img : NDImage) : NDImage :=
  (List.range img.sizes.length).foldl
    (fun acc d => if process.getD d false then enginePass filterData bc d acc else acc) img

/-- `dip::SeparableConvolution` (lines 202-271): validation, normalization,
process-array handling and no-op elision from the source; the dispatch to
the external engine is modelled from the spec (`separableEngine`).  The
computed border array (`computeBorder`) sizes the boundary extension the
engine materializes; in this total-function model of lines it is not
otherwise observable.  The flex promotion of the sample type is the identity
here because samples are already exact rationals. -/
def SeparableConvolution (img : NDImage) (filterArray : List OneDimensionalFilter)
    (bc : BoundaryExtension) (process : List Bool) : Except String NDImage :=
  if img.forged = false then .error "Image not forged"
  else if img.sizes.length < 1 then .error "Dimensionality not supported"
  else if filterArray.length ≠ 1 ∧ filterArray.length ≠ img.sizes.length then
    .error "Array has illegal size"
  else
    match normalizeFilterArray filterArray with
    | .error e => .error e
    | .ok filterData =>
      match resolveProcess process img.sizes.length with
      | .error e => .error e
      | .ok p0 =>
        .ok (separableEngine filterData bc (elideProcess filterData img.sizes p0) img)

/-- The sample of a convolution result at a coordinate, when the call
succeeded. -/
def resultData (r : Except String NDImage) (coord : List ℤ) : Option ℚ :=
  match r with
  | .ok out => some (out.data coord)
  | .error _ => none

/-!
## General (full) convolution (`dip::GeneralConvolution`)
-/

/-- A kernel as its linearized offset table along a processing line: paired
offset and weight lists (`PixelTableOffsets` and its `Weights()`), already
mirrored at construction. -/
structure KernelTable where
  offsets : List ℤ
  weights : List ℚ
deriving DecidableEq, Repr

/-- `GeneralConvolutionLineFilter::Filter` (lines 319-344): for each output
sample walk the offset/weight pairs and accumulate `input[offset] * weight`. -/
def generalConvLine (k : KernelTable) (x : ℤ → ℚ) (ii : ℤ) : ℚ :=
  ∑ j ∈ Finset.range k.offsets.length,
    x (ii + k.offsets.getD j 0) * k.weights.getD j 0

/-- Modelled from the spec: `dip::Uniform` (not among the shown sources),
per §8.6 of the spec the unweighted neighborhood sum over the kernel
footprint divided by the kernel cardinality. -/
def uniformLine (offsets : List ℤ) (x : ℤ → ℚ) (ii : ℤ) : ℚ :=
  (∑ j ∈ Finset.range offsets.length, x (ii + offsets.getD j 0)) / (offsets.length : ℚ)

/-- Which filtering path `GeneralConvolution` dispatched to. -/
inductive ConvPath where
  | uniformPath
  | generalPath
deriving DecidableEq, Repr

/-- `dip::GeneralConvolution` (lines 348-381) at line level: after the forged
checks, a kernel image of binary sample type short-circuits to `Uniform` over
the (mirrored) footprint and returns; otherwise the general line filter runs
over the offset/weight table. -/
def GeneralConvolution (inForged kernForged : Bool) (kernIsBinary : Bool)
    (k : KernelTable) (x : ℤ → ℚ) : Except String (ConvPath × (ℤ → ℚ)) :=
  if inForged = false then .error "Image not forged"
  else if kernForged = false then .error "Image not forged"
  else if kernIsBinary then .ok (.uniformPath, fun ii => uniformLine k.offsets x ii)
  else .ok (.generalPath, fun ii => generalConvLine k x ii)

/-- The dispatched path of a `GeneralConvolution` result. -/
def convPathOf (r : Except String (ConvPath × (ℤ → ℚ))) : Option ConvPath :=
  match r with
  | .ok (p, _) => some p
  | .error _ => none

/-- The output sample of a `GeneralConvolution` result at one index. -/
def convValueAt (r : Except String (ConvPath × (ℤ → ℚ))) (ii : ℤ) : Option ℚ :=
  match r with
  | .ok (_, out) => some (out ii)
  | .error _ => none

/-!
## Frequency-domain convolution (`dip::ConvolveFT`)

The images carry exactly the state `ConvolveFT` inspects: forged flag, sizes,
and whether the sample type is real.  The Fourier transform itself is a black
box; what is verified is the bookkeeping (the `real` flag, the size checks,
and which options reach the final inverse transform). -/

/-- The per-image state `ConvolveFT` inspects. -/
structure FTImage where
  forged : Bool
  sizes : List ℕ
  isReal : Bool
deriving DecidableEq, Repr

/-- Modelled from the spec: `Image::ExpandDimensionality` (not among the
shown sources) appends trailing singleton dimensions up to dimensionality
`n`; the sample type (realness) is unchanged. -/
def expandDimensionality (img : FTImage) (n : ℕ) : FTImage :=
  { img with sizes := img.sizes ++ List.replicate (n - img.sizes.length) 1 }

/-- Modelled from the spec (and the source comment at line 297):
`UnsignedArray::operator<=` holds when the two arrays have equal length and
compare element-wise; differing dimensionalities compare false. -/
def uarrayLe (a b : List ℕ) : Prop :=
  a.length = b.length ∧ ∀ i ∈ Finset.range a.length, a.getD i 0 ≤ b.getD i 0

instance (a b : List ℕ) : Decidable (uarrayLe a b) := by
  unfold uarrayLe; infer_instance

/-- The filter image after the dimensionality expansion of lines 294-296. -/
def expandedFilter (inImg filt : FTImage) : FTImage :=
  if filt.sizes.length < inImg.sizes.length then
    expandDimensionality filt inImg.sizes.length
  else filt

/-- The observable outcome of a `ConvolveFT` call: the final `real` flag, the
sizes of the filter at the moment of its forward transform (`none` when the
filter was supplied already transformed), and the `real` option handed to the
final inverse transform (`none` when no inverse transform runs). -/
structure ConvolveFTTrace where
  real : Bool
  filterForwardSizes : Option (List ℕ)
  inverseRealOption : Option Bool
deriving DecidableEq, Repr

/-- The final value of the `real` flag of `ConvolveFT` (lines 284-304): it
starts true, is cleared when `in` is frequency-domain or complex, and cleared
again when the filter is frequency-domain or complex.  The filter's realness
is inspected on `filterFT` after expansion and padding, which leave the
sample type — hence realness — unchanged. -/
def convolveFTReal (inImg filt : FTImage) (inRep filterRep : String) : Bool :=
  if filterRep = "spatial" then
    (if inRep = "spatial" then inImg.isReal else false) &&
      (expandedFilter inImg filt).isReal
  else false

/-- `dip::ConvolveFT` (lines 274-314): forged checks; the filter is
dimensionality-expanded, size-checked against the input (`uarrayLe`, throwing
"Sizes do not match"), padded to the input's sizes — so the filter the
forward transform sees has the input's sizes — and only then (if spatial)
forward-transformed; when the output representation is spatial the inverse
transform receives the "real" option exactly when the `real` flag
(`convolveFTReal`) survived. -/
def ConvolveFT (inImg filt : FTImage) (inRep filterRep outRep : String) :
    Except String ConvolveFTTrace :=
  if inImg.forged = false then .error "Image not forged"
  else if filt.forged = false then .error "Image not forged"
  else if ¬ uarrayLe (expandedFilter inImg filt).sizes inImg.sizes then
    .error "Sizes do not match"
  else
    .ok { real := convolveFTReal inImg filt inRep filterRep,
          filterForwardSizes := if filterRep = "spatial" then some inImg.sizes else none,
          inverseRealOption := if outRep = "spatial" then
              some (convolveFTReal inImg filt inRep filterRep) else none }

/-- Canonicalization of a representation string: everything other than the
exact string "spatial" behaves as "frequency". -/
def canonRep (s : String) : String := if s = "spatial" then "spatial" else "frequency"

/-- The error of a `ConvolveFT` outcome, if any. -/
def ftErrorOf (r : Except String ConvolveFTTrace) : Option String :=
  match r with
  | .error e => some e
  | .ok _ => none

end DiplibConv

namespace DiplibConv

/-! ## List access helpers -/

lemma getD_append_lt (l l' : List ℚ) (i : ℕ) (h : i < l.length) :
    (l ++ l').getD i 0 = l.getD i 0 := by
  simp [List.getD_eq_getElem?_getD, List.getElem?_append_left h]

lemma getD_append_ge (l l' : List ℚ) (i : ℕ) (h : l.length ≤ i) :
    (l ++ l').getD i 0 = l'.getD (i - l.length) 0 := by
  simp [List.getD_eq_getElem?_getD, List.getElem?_append_right h]

lemma getD_rev (l : List ℚ) (i : ℕ) (h : i < l.length) :
    l.reverse.getD i 0 = l.getD (l.length - 1 - i) 0 := by
  rw [List.getD_eq_getElem _ _ (by simpa using h), List.getD_eq_getElem _ _ (by omega)]
  exact List.getElem_reverse ..

lemma getD_dropLastQ (l : List ℚ) (i : ℕ) (h : i < l.length - 1) :
    l.dropLast.getD i 0 = l.getD i 0 := by
  rw [List.getD_eq_getElem _ _ (by simpa using h), List.getD_eq_getElem _ _ (by omega)]
  exact List.getElem_dropLast ..

lemma getD_mapNeg (l : List ℚ) (i : ℕ) (h : i < l.length) :
    (l.map (fun a => -a)).getD i 0 = -(l.getD i 0) := by
  rw [List.getD_eq_getElem _ _ (by simpa using h), List.getD_eq_getElem _ _ h]
  simp

/-! ## Structure of the general (literal) convolution sum -/

/-- Splitting a general convolution over a concatenated coefficient list. -/
lemma generalFilterLine_append (l l' : List ℚ) (o : ℤ) (x : ℤ → ℚ) (ii : ℤ) :
    generalFilterLine (l ++ l') o x ii =
      generalFilterLine l o x ii +
        ∑ m ∈ Finset.range l'.length, l'.getD m 0 * x (ii + o - (l.length : ℤ) - (m : ℤ)) := by
  unfold generalFilterLine
  rw [List.length_append, Finset.sum_range_add]
  congr 1
  · exact Finset.sum_congr rfl fun jj hjj => by
      rw [getD_append_lt _ _ _ (Finset.mem_range.mp hjj)]
  · refine Finset.sum_congr rfl fun m hm => ?_
    rw [getD_append_ge _ _ _ (by omega), Nat.add_sub_cancel_left]
    congr 1
    push_cast
    ring_nf

/-- Reversing the traversal order of a general convolution. -/
lemma generalFilterLine_reflect (l : List ℚ) (o : ℤ) (x : ℤ → ℚ) (ii : ℤ) :
    generalFilterLine l o x ii =
      ∑ t ∈ Finset.range l.length,
        l.getD (l.length - 1 - t) 0 * x (ii + o - ((l.length : ℤ) - 1) + (t : ℤ)) := by
  unfold generalFilterLine
  rw [← Finset.sum_range_reflect]
  refine Finset.sum_congr rfl fun t ht => ?_
  have ht' : t < l.length := Finset.mem_range.mp ht
  congr 2
  omega

/-! ## Symmetry-specific loops versus the literal loop on the expanded filter -/

lemma general_eq_even (c : List ℚ) (h : c ≠ []) (o : ℤ) (x : ℤ → ℚ) (ii : ℤ) :
    generalFilterLine (expandEven c) o x ii = evenFilterLine c o x ii := by
  obtain ⟨n, hn⟩ : ∃ n, c.length = n + 1 := ⟨c.length - 1, by cases c <;> simp_all⟩
  unfold expandEven
  rw [generalFilterLine_append]
  unfold generalFilterLine evenFilterLine
  simp only [hn, Nat.add_sub_cancel, List.length_reverse, List.length_dropLast]
  rw [Finset.sum_range_succ, ← Finset.sum_range_reflect]
  simp only [mul_add, Finset.sum_add_distrib]
  have h1 : ∀ m ∈ Finset.range n,
      c.dropLast.reverse.getD m 0 * x (ii + o - ((n + 1 : ℕ) : ℤ) - (m : ℤ)) =
        c.getD (n - 1 - m) 0 * x (ii + o - (n : ℤ) - ((m : ℤ) + 1)) := by
    intro m hm
    have hm' : m < n := Finset.mem_range.mp hm
    rw [getD_rev _ _ (by simp [hn]; omega), getD_dropLastQ _ _ (by simp [hn]; omega)]
    have harg : ii + o - ((n + 1 : ℕ) : ℤ) - (m : ℤ) = ii + o - (n : ℤ) - ((m : ℤ) + 1) := by
      omega
    rw [harg]
    congr 2
    simp [hn]
  have h2 : ∀ j ∈ Finset.range n,
      c.getD (n - 1 - j) 0 * x (ii + o - ((n - 1 - j : ℕ) : ℤ)) =
        c.getD (n - 1 - j) 0 * x (ii + o - (n : ℤ) + ((j : ℤ) + 1)) := by
    intro j hj
    have hj' : j < n := Finset.mem_range.mp hj
    have harg : ii + o - ((n - 1 - j : ℕ) : ℤ) = ii + o - (n : ℤ) + ((j : ℤ) + 1) := by omega
    rw [harg]
  rw [Finset.sum_congr rfl h1, Finset.sum_congr rfl h2]
  ring

lemma general_eq_odd (c : List ℚ) (h : c ≠ []) (o : ℤ) (x : ℤ → ℚ) (ii : ℤ) :
    generalFilterLine (expandOdd c) o x ii = oddFilterLine c o x ii := by
  obtain ⟨n, hn⟩ : ∃ n, c.length = n + 1 := ⟨c.length - 1, by cases c <;> simp_all⟩
  unfold expandOdd
  rw [generalFilterLine_append]
  unfold generalFilterLine oddFilterLine
  simp only [hn, Nat.add_sub_cancel, List.length_map, List.length_reverse,
    List.length_dropLast]
  rw [Finset.sum_range_succ, ← Finset.sum_range_reflect]
  simp only [mul_sub, Finset.sum_sub_distrib]
  have h1 : ∀ m ∈ Finset.range n,
      (c.dropLast.reverse.map (fun a => -a)).getD m 0 * x (ii + o - ((n + 1 : ℕ) : ℤ) - (m : ℤ)) =
        -(c.getD (n - 1 - m) 0 * x (ii + o - (n : ℤ) - ((m : ℤ) + 1))) := by
    intro m hm
    have hm' : m < n := Finset.mem_range.mp hm
    rw [getD_mapNeg _ _ (by simp [hn]; omega), getD_rev _ _ (by simp [hn]; omega),
      getD_dropLastQ _ _ (by simp [hn]; omega)]
    have harg : ii + o - ((n + 1 : ℕ) : ℤ) - (m : ℤ) = ii + o - (n : ℤ) - ((m : ℤ) + 1) := by
      omega
    rw [harg, neg_mul]
    congr 3
    simp [hn]
  have h2 : ∀ j ∈ Finset.range n,
      c.getD (n - 1 - j) 0 * x (ii + o - ((n - 1 - j : ℕ) : ℤ)) =
        c.getD (n - 1 - j) 0 * x (ii + o - (n : ℤ) + ((j : ℤ) + 1)) := by
    intro j hj
    have hj' : j < n := Finset.mem_range.mp hj
    have harg : ii + o - ((n - 1 - j : ℕ) : ℤ) = ii + o - (n : ℤ) + ((j : ℤ) + 1) := by omega
    rw [harg]
  rw [Finset.sum_congr rfl h1, Finset.sum_congr rfl h2, Finset.sum_neg_distrib]
  ring

lemma general_eq_dEven (c : List ℚ) (o : ℤ) (x : ℤ → ℚ) (ii : ℤ) :
    generalFilterLine (expandDEven c) o x ii = dEvenFilterLine c o x ii := by
  unfold expandDEven
  rw [generalFilterLine_append, generalFilterLine_reflect]
  unfold dEvenFilterLine
  simp only [List.length_reverse, mul_add, Finset.sum_add_distrib]
  have h1 : ∀ t ∈ Finset.range c.length,
      c.getD (c.length - 1 - t) 0 * x (ii + o - ((c.length : ℤ) - 1) + (t : ℤ)) =
        c.getD (c.length - 1 - t) 0 * x (ii + o - ((c.length - 1 : ℕ) : ℤ) + (t : ℤ)) := by
    intro t ht
    have ht' : t < c.length := Finset.mem_range.mp ht
    have harg : ii + o - ((c.length : ℤ) - 1) + (t : ℤ) =
        ii + o - ((c.length - 1 : ℕ) : ℤ) + (t : ℤ) := by omega
    rw [harg]
  have h2 : ∀ m ∈ Finset.range c.length,
      c.reverse.getD m 0 * x (ii + o - (c.length : ℤ) - (m : ℤ)) =
        c.getD (c.length - 1 - m) 0 * x (ii + o - ((c.length - 1 : ℕ) : ℤ) - 1 - (m : ℤ)) := by
    intro m hm
    have hm' : m < c.length := Finset.mem_range.mp hm
    rw [getD_rev _ _ hm']
    have harg : ii + o - (c.length : ℤ) - (m : ℤ) =
        ii + o - ((c.length - 1 : ℕ) : ℤ) - 1 - (m : ℤ) := by omega
    rw [harg]
  rw [Finset.sum_congr rfl h1, Finset.sum_congr rfl h2]

lemma general_eq_dOdd (c : List ℚ) (o : ℤ) (x : ℤ → ℚ) (ii : ℤ) :
    generalFilterLine (expandDOdd c) o x ii = dOddFilterLine c o x ii := by
  unfold expandDOdd
  rw [generalFilterLine_append, generalFilterLine_reflect]
  unfold dOddFilterLine
  simp only [List.length_map, List.length_reverse, mul_sub, Finset.sum_sub_distrib]
  have h1 : ∀ t ∈ Finset.range c.length,
      c.getD (c.length - 1 - t) 0 * x (ii + o - ((c.length : ℤ) - 1) + (t : ℤ)) =
        c.getD (c.length - 1 - t) 0 * x (ii + o - ((c.length - 1 : ℕ) : ℤ) + (t : ℤ)) := by
    intro t ht
    have ht' : t < c.length := Finset.mem_range.mp ht
    have harg : ii + o - ((c.length : ℤ) - 1) + (t : ℤ) =
        ii + o - ((c.length - 1 : ℕ) : ℤ) + (t : ℤ) := by omega
    rw [harg]
  have h2 : ∀ m ∈ Finset.range c.length,
      (c.reverse.map (fun a => -a)).getD m 0 * x (ii + o - (c.length : ℤ) - (m : ℤ)) =
        -(c.getD (c.length - 1 - m) 0 *
            x (ii + o - ((c.length - 1 : ℕ) : ℤ) - 1 - (m : ℤ))) := by
    intro m hm
    have hm' : m < c.length := Finset.mem_range.mp hm
    rw [getD_mapNeg _ _ (by simpa using hm'), getD_rev _ _ hm', neg_mul]
    have harg : ii + o - (c.length : ℤ) - (m : ℤ) =
        ii + o - ((c.length - 1 : ℕ) : ℤ) - 1 - (m : ℤ) := by omega
    rw [harg]
  rw [Finset.sum_congr rfl h1, Finset.sum_congr rfl h2, Finset.sum_neg_distrib]
  ring

/-- Claim C1: for every input line `x` and every nonempty half filter `c`, the
separable line filter applied with the corresponding full explicit filter
under GENERAL symmetry produces at every output sample the same value as the
half filter under EVEN symmetry with the same origin, and likewise for ODD,
D_EVEN and D_ODD against their corresponding full filters. -/
theorem C1_separable_symmetry_equivalence (c : List ℚ) (h : c ≠ []) (origin : ℤ)
    (x : ℤ → ℚ) (ii : ℤ) :
    generalFilterLine (expandEven c) origin x ii = evenFilterLine c origin x ii ∧
    generalFilterLine (expandOdd c) origin x ii = oddFilterLine c origin x ii ∧
    generalFilterLine (expandDEven c) origin x ii = dEvenFilterLine c origin x ii ∧
    generalFilterLine (expandDOdd c) origin x ii = dOddFilterLine c origin x ii :=
  ⟨general_eq_even c h origin x ii, general_eq_odd c h origin x ii,
    general_eq_dEven c origin x ii, general_eq_dOdd c origin x ii⟩

/-- Witness for C1 at the half filter `[1, 2, 5]`, origin 2, the input line
`t ↦ t` and output index 3. -/
theorem C1_separable_symmetry_equivalence_witness :
    ([1, 2, 5] : List ℚ) ≠ [] ∧
      (generalFilterLine (expandEven [1, 2, 5]) 2 (fun t => (t : ℚ)) 3 =
          evenFilterLine [1, 2, 5] 2 (fun t => (t : ℚ)) 3 ∧
        generalFilterLine (expandOdd [1, 2, 5]) 2 (fun t => (t : ℚ)) 3 =
          oddFilterLine [1, 2, 5] 2 (fun t => (t : ℚ)) 3 ∧
        generalFilterLine (expandDEven [1, 2, 5]) 2 (fun t => (t : ℚ)) 3 =
          dEvenFilterLine [1, 2, 5] 2 (fun t => (t : ℚ)) 3 ∧
        generalFilterLine (expandDOdd [1, 2, 5]) 2 (fun t => (t : ℚ)) 3 =
          dOddFilterLine [1, 2, 5] 2 (fun t => (t : ℚ)) 3) :=
  ⟨by simp, C1_separable_symmetry_equivalence [1, 2, 5] (by simp) 2 (fun t => (t : ℚ)) 3⟩

end DiplibConv

namespace DiplibConv

/-! ## Invariants of the filter normalizer -/

lemma symmetrySize_ok (s : String) (n : ℕ) (sym : FilterSymmetry) (size : ℕ)
    (h : symmetrySize s n = .ok (sym, size)) (hn : n ≠ 0) : size ≠ 0 := by
  unfold symmetrySize at h
  repeat' split at h
  all_goals first
    | (rw [Except.ok.injEq, Prod.mk.injEq] at h
       omega)
    | exact absurd h (by simp)

lemma intern_ok_inv (inf : OneDimensionalFilter) (f : InternOneDimensionalFilter)
    (h : internOneDimensionalFilter inf = .ok f) :
    (f.size = 0 → f.origin = 0) ∧ (f.size ≠ 0 → f.origin < f.size) := by
  unfold internOneDimensionalFilter at h
  by_cases hl : inf.filter.length = 0
  · rw [if_pos hl, Except.ok.injEq] at h
    subst h
    simp
  · rw [if_neg hl] at h
    rcases hres : symmetrySize inf.symmetry inf.filter.length with e | ⟨sym, size⟩ <;>
      rw [hres] at h <;> dsimp only at h
    · exact absurd h (by simp)
    · have hsz : size ≠ 0 := symmetrySize_ok _ _ _ _ hres hl
      split at h
      · rw [Except.ok.injEq] at h
        subst h
        constructor <;> intro hszf <;> simp_all <;> omega
      · split at h
        · exact absurd h (by simp)
        · rw [Except.ok.injEq] at h
          subst h
          rename_i hge
          constructor <;> intro hszf <;> simp_all <;> omega

/-- Claim C4 (amended): normalization of a filter spec with a symmetry string
outside the five recognized tags (and not empty) fails with the
"unrecognized symmetry" error whenever the coefficient sequence is
non-empty; with an empty coefficient sequence the symmetry check is skipped
entirely and normalization succeeds with logical size 0. -/
theorem C4_unrecognized_symmetry (inf : OneDimensionalFilter) :
    (inf.filter ≠ [] → ¬ recognizedSymmetry inf.symmetry →
      internOneDimensionalFilter inf =
        .error ("Symmetry string not recognized: " ++ inf.symmetry)) ∧
    (inf.filter = [] →
      internOneDimensionalFilter inf = .ok ⟨inf.filter, 0, 0, .GENERAL⟩) := by
  constructor
  · intro hne hrec
    unfold internOneDimensionalFilter symmetrySize
    simp only [recognizedSymmetry, not_or] at hrec
    obtain ⟨h1, h2, h3, h4, h5, h6⟩ := hrec
    simp [List.length_eq_zero, hne, h1, h2, h3, h4, h5, h6]
  · intro he
    unfold internOneDimensionalFilter
    simp [he]

/-- Witness for C4: the unrecognized symmetry string "bogus" on a non-empty
filter fails with the expected error. -/
theorem C4_unrecognized_symmetry_witness :
    internOneDimensionalFilter ⟨[2], "bogus", -1⟩ =
      .error ("Symmetry string not recognized: " ++ "bogus") :=
  (C4_unrecognized_symmetry ⟨[2], "bogus", -1⟩).1 (by simp) (by decide)

/-- Counterexample to C4 as stated: with an empty coefficient sequence an
unrecognized symmetry string does NOT fail — normalization succeeds, because
the `size == 0` early path skips the symmetry check. -/
theorem C4_unrecognized_symmetry_counterexample :
    internOneDimensionalFilter ⟨[], "bogus", -1⟩ = .ok ⟨[], 0, 0, .GENERAL⟩ := rfl

/-- Claim C5: for a non-empty coefficient sequence and a recognized symmetry,
a negative (unspecified) origin resolves to `logicalSize / 2` (integer
division); a non-negative origin fails with "origin outside filter" exactly
when it reaches the logical size, and is kept unchanged otherwise. -/
theorem C5_origin_resolution (inf : OneDimensionalFilter) (hne : inf.filter ≠ [])
    (hrec : recognizedSymmetry inf.symmetry) :
    (inf.origin < 0 →
      normOrigin (internOneDimensionalFilter inf) = some (logicalSize inf / 2)) ∧
    (0 ≤ inf.origin →
      (internOneDimensionalFilter inf = .error "Origin outside of filter" ↔
        logicalSize inf ≤ inf.origin.toNat) ∧
      (inf.origin.toNat < logicalSize inf →
        normOrigin (internOneDimensionalFilter inf) = some inf.origin.toNat)) := by
  have hlen : inf.filter.length ≠ 0 := by simpa [List.length_eq_zero] using hne
  constructor
  · intro hor
    rcases hrec with h | h | h | h | h | h <;>
      simp [internOneDimensionalFilter, symmetrySize, logicalSize, normOrigin, h, hlen, hor]
  · intro hor
    constructor
    · rcases hrec with h | h | h | h | h | h <;>
        simp [internOneDimensionalFilter, symmetrySize, logicalSize, normOrigin, h, hlen,
          not_lt.mpr hor]
    · intro hlt
      rcases hrec with h | h | h | h | h | h <;>
        (simp [logicalSize, h] at hlt
         simp [internOneDimensionalFilter, symmetrySize, normOrigin, h, hlen, not_lt.mpr hor]
         rw [if_neg (by omega)])

/-- Witness for C5: the half filter `[1, 2]` under "even" has logical size 3;
its unspecified origin resolves to `3 / 2 = 1`. -/
theorem C5_origin_resolution_witness :
    (-1 : ℤ) < 0 ∧
      normOrigin (internOneDimensionalFilter ⟨[1, 2], "even", -1⟩) =
        some (logicalSize ⟨[1, 2], "even", -1⟩ / 2) :=
  ⟨by decide, (C5_origin_resolution ⟨[1, 2], "even", -1⟩ (by simp) (by decide)).1 (by decide)⟩

/-- Claim C2 (amended): the border for a successfully normalized filter is
`max(origin, logicalSize - origin - 1)` with the subtraction performed in
wrapping 64-bit unsigned arithmetic.  For logical size ≥ 1 this agrees with
the integer subtraction (the origin is strictly inside the filter), but for
logical size 0 the subtraction wraps and the border is `2^64 - 1`.  With a
single broadcast filter the same scalar border fills every dimension. -/
theorem C2_border_requirement (inf : OneDimensionalFilter) (f : InternOneDimensionalFilter)
    (h : internOneDimensionalFilter inf = .ok f) (hw : f.size < UINT_MOD) :
    (f.size ≠ 0 →
      ((borderOfFilter f : ℤ) =
        max (f.origin : ℤ) ((f.size : ℤ) - (f.origin : ℤ) - 1))) ∧
    (f.size = 0 → borderOfFilter f = UINT_MOD - 1) ∧
    (∀ nDims, computeBorder nDims [f] = List.replicate nDims (borderOfFilter f)) := by
  obtain ⟨hz, hnz⟩ := intern_ok_inv inf f h
  refine ⟨fun hs => ?_, fun hs => ?_, fun nDims => ?_⟩
  · have hor : f.origin < f.size := hnz hs
    have h1 : usub f.size f.origin = f.size - f.origin := by
      unfold usub UINT_MOD
      unfold UINT_MOD at hw
      omega
    have h2 : usub (f.size - f.origin) 1 = f.size - f.origin - 1 := by
      unfold usub UINT_MOD
      unfold UINT_MOD at hw
      omega
    unfold borderOfFilter
    rw [h1, h2, Nat.cast_max]
    have hc : ((f.size - f.origin - 1 : ℕ) : ℤ) = (f.size : ℤ) - (f.origin : ℤ) - 1 := by
      omega
    rw [hc]
  · have hor : f.origin = 0 := hz hs
    unfold borderOfFilter usub UINT_MOD
    rw [hs, hor]
    norm_num
  · simp [computeBorder]

/-- Witness for C2 at the filter `[1, 2, 3]` (logical size 3, origin 1):
border 1, matching the integer formula. -/
theorem C2_border_requirement_witness :
    (3 : ℕ) ≠ 0 ∧
      ((borderOfFilter ⟨[1, 2, 3], 3, 1, .GENERAL⟩ : ℤ) =
        max ((1 : ℕ) : ℤ) (((3 : ℕ) : ℤ) - ((1 : ℕ) : ℤ) - 1)) :=
  ⟨by norm_num,
    (C2_border_requirement ⟨[1, 2, 3], "", -1⟩ ⟨[1, 2, 3], 3, 1, .GENERAL⟩ (by rfl)
        (by norm_num [UINT_MOD])).1 (by norm_num)⟩

/-- Counterexample to C2 as stated: a broadcast filter of logical size 0
produces a border of `2^64 - 1` in every dimension (the unsigned subtraction
wraps), not the value 0 demanded by the claim's non-wrapping integer
formula `max(0, 0 - 0 - 1) = 0`. -/
theorem C2_border_requirement_counterexample :
    internOneDimensionalFilter ⟨[], "", -1⟩ = .ok ⟨[], 0, 0, .GENERAL⟩ ∧
    computeBorder 2 [⟨[], 0, 0, .GENERAL⟩] = [UINT_MOD - 1, UINT_MOD - 1] ∧
    ((UINT_MOD - 1 : ℕ) : ℤ) ≠ max ((0 : ℕ) : ℤ) (((0 : ℕ) : ℤ) - ((0 : ℕ) : ℤ) - 1) := by
  refine ⟨rfl, ?_, by norm_num [UINT_MOD]⟩
  norm_num [computeBorder, borderOfFilter, usub, UINT_MOD, List.replicate]

end DiplibConv

namespace DiplibConv

/-! ## The orchestrator: no-op elision -/

lemma getD_replicate_lt {α : Type} (a d : α) (n i : ℕ) (h : i < n) :
    (List.replicate n a).getD i d = a := by
  rw [List.getD_eq_getElem _ _ (by simpa using h)]
  simp

lemma getD_replicate_false (n i : ℕ) :
    (List.replicate n false).getD i false = false := by
  rcases Nat.lt_or_ge i n with h | h
  · exact getD_replicate_lt _ _ _ _ h
  · rw [List.getD_eq_default _ _ (by simpa using h)]

lemma separableEngine_allFalse (fd : List InternOneDimensionalFilter)
    (bc : BoundaryExtension) (m : ℕ) (img : NDImage) :
    separableEngine fd bc (List.replicate m false) img = img := by
  unfold separableEngine
  generalize List.range img.sizes.length = L
  induction L generalizing img with
  | nil => rfl
  | cons d L ih => simp [List.foldl_cons, getD_replicate_false, ih]

lemma mapRange_getD (g : ℕ → Bool) (n ii : ℕ) (h : ii < n) :
    ((List.range n).map g).getD ii false = g ii := by
  rw [List.getD_eq_getElem _ _ (by simpa using h)]
  simp

/-- Claim C3: a valid `SeparableConvolution` call on a forged image with a
single filter of logical size 0, or of logical size 1 with unit coefficient,
leaves every sample numerically unchanged, for every boundary condition: the
filter is recognized as a no-op, every process flag is cleared, and the
engine dispatch does no work. -/
theorem C3_noop_filter_identity (img : NDImage) (bc : BoundaryExtension)
    (inf : OneDimensionalFilter) (nf : InternOneDimensionalFilter) (process : List Bool)
    (coord : List ℤ)
    (hf : img.forged = true) (hd : 1 ≤ img.sizes.length)
    (hp : process = [] ∨ process.length = img.sizes.length)
    (hn : internOneDimensionalFilter inf = .ok nf)
    (hnoop : nf.size = 0 ∨ (nf.size = 1 ∧ nf.filter.getD 0 0 = 1)) :
    resultData (SeparableConvolution img [inf] bc process) coord = some (img.data coord) := by
  have hmean : IsMeaninglessFilter nf := hnoop
  have hfilters : normalizeFilterArray [inf] = .ok [nf] := by
    simp [normalizeFilterArray, hn]
  obtain ⟨p0, hp0⟩ : ∃ p0, resolveProcess process img.sizes.length = .ok p0 := by
    rcases hp with h | h
    · exact ⟨List.replicate img.sizes.length true, by simp [resolveProcess, h]⟩
    · by_cases hempty : process = []
      · exact ⟨List.replicate img.sizes.length true, by simp [resolveProcess, hempty]⟩
      · refine ⟨process, ?_⟩
        unfold resolveProcess
        rw [if_neg (by simpa [List.isEmpty_iff] using hempty), if_neg (by omega)]
  unfold SeparableConvolution
  rw [if_neg (by simp [hf]), if_neg (by omega), if_neg (by simp), hfilters]
  dsimp only
  rw [hp0]
  dsimp only
  have helide : elideProcess [nf] img.sizes p0 = List.replicate p0.length false := by
    unfold elideProcess
    rw [if_pos (by simp), if_pos (by simpa using hmean)]
  rw [helide, separableEngine_allFalse]
  rfl

/-- Witness for C3: a 1-D image of extent 2 with the identity filter `[1]` is
returned unchanged at coordinate `[0]`. -/
theorem C3_noop_filter_identity_witness :
    resultData
        (SeparableConvolution ⟨true, [2], fun c => ((c.getD 0 0 : ℤ) : ℚ)⟩ [⟨[1], "", -1⟩]
          (fun line _ => line) [])
        [0] =
      some (((0 : ℤ) : ℚ)) :=
  C3_noop_filter_identity ⟨true, [2], fun c => ((c.getD 0 0 : ℤ) : ℚ)⟩ (fun line _ => line)
    ⟨[1], "", -1⟩ ⟨[1], 1, 0, .GENERAL⟩ [] [0] rfl (by decide) (.inl rfl) (by rfl)
    (.inr ⟨rfl, by norm_num⟩)

/-- Claim C6 (amended): with one filter per dimension, a dimension whose
filter is a no-op or whose input extent is at most 1 is marked not processed
even if requested.  With a single broadcast filter, all dimensions are
marked not processed when that filter is a no-op, but — contrary to the
claim — extent-1 dimensions are NOT elided when the broadcast filter is
meaningful: the requested process flags are left unchanged. -/
theorem C6_process_elision (fd : List InternOneDimensionalFilter) (sizes : List ℕ)
    (process : List Bool) :
    (fd.length ≠ 1 → ∀ ii, ii < process.length →
      (IsMeaninglessFilter (fd.getD ii default) ∨ sizes.getD ii 0 ≤ 1) →
        (elideProcess fd sizes process).getD ii false = false) ∧
    (∀ f, fd = [f] → IsMeaninglessFilter f →
      ∀ ii, (elideProcess fd sizes process).getD ii false = false) ∧
    (∀ f, fd = [f] → ¬ IsMeaninglessFilter f → elideProcess fd sizes process = process) := by
  refine ⟨fun h1 ii hii hcond => ?_, fun f hf hm ii => ?_, fun f hf hm => ?_⟩
  · unfold elideProcess
    rw [if_neg h1, mapRange_getD _ _ _ hii, if_pos hcond]
  · subst hf
    unfold elideProcess
    rw [if_pos (by simp), if_pos (by simpa using hm)]
    exact getD_replicate_false _ _
  · subst hf
    unfold elideProcess
    rw [if_pos (by simp), if_neg (by simpa using hm)]

/-- Witness for C6: a broadcast size-0 filter clears the process flag of
dimension 0. -/
theorem C6_process_elision_witness :
    (elideProcess [⟨[], 0, 0, .GENERAL⟩] [5] [true]).getD 0 false = false :=
  (C6_process_elision _ _ _).2.1 ⟨[], 0, 0, .GENERAL⟩ rfl (.inl rfl) 0

/-- Counterexample to C6 as stated: a single meaningful filter `[1, 2]`
broadcast over a 2-D image of sizes `[1, 5]` leaves the process array
`[true, true]` untouched — dimension 0 has input extent 1 and was requested,
yet it is NOT marked "not processed" in the broadcast case. -/
theorem C6_process_elision_counterexample :
    internOneDimensionalFilter ⟨[1, 2], "general", -1⟩ = .ok ⟨[1, 2], 2, 1, .GENERAL⟩ ∧
    (1 : ℕ) ≤ 1 ∧
    elideProcess [⟨[1, 2], 2, 1, .GENERAL⟩] [1, 5] [true, true] = [true, true] := by
  refine ⟨by rfl, le_refl 1, ?_⟩
  unfold elideProcess
  rw [if_pos (by simp), if_neg (by norm_num [IsMeaninglessFilter])]

end DiplibConv

namespace DiplibConv

/-! ## General convolution: the binary-kernel fast path -/

lemma getD_replicate_one (n i : ℕ) (h : i < n) :
    (List.replicate n (1 : ℚ)).getD i 0 = 1 :=
  getD_replicate_lt _ _ _ _ h

/-- Claim C7 (amended): with a binary kernel image (footprint weights all 1),
`GeneralConvolution` short-circuits to the uniform filter over the footprint
and returns without dispatching the general path; the result is the
unweighted neighborhood sum divided by the kernel cardinality — which is the
general weighted path's value divided by the kernel cardinality, not equal
to it (the general path computes the plain sum). -/
theorem C7_binary_kernel_uniform (inForged kernForged : Bool) (k : KernelTable)
    (x : ℤ → ℚ) (ii : ℤ)
    (hin : inForged = true) (hk : kernForged = true)
    (hw : k.weights = List.replicate k.offsets.length 1)
    (hne : k.offsets ≠ []) :
    convPathOf (GeneralConvolution inForged kernForged true k x) = some .uniformPath ∧
    convValueAt (GeneralConvolution inForged kernForged true k x) ii =
      some (uniformLine k.offsets x ii) ∧
    generalConvLine k x ii = (k.offsets.length : ℚ) * uniformLine k.offsets x ii := by
  refine ⟨?_, ?_, ?_⟩
  · simp [GeneralConvolution, hin, hk, convPathOf]
  · simp [GeneralConvolution, hin, hk, convValueAt]
  · unfold generalConvLine uniformLine
    rw [hw]
    have hcongr : ∀ j ∈ Finset.range k.offsets.length,
        x (ii + k.offsets.getD j 0) * (List.replicate k.offsets.length (1 : ℚ)).getD j 0 =
          x (ii + k.offsets.getD j 0) := by
      intro j hj
      rw [getD_replicate_one _ _ (Finset.mem_range.mp hj), mul_one]
    rw [Finset.sum_congr rfl hcongr]
    have hn0 : ((k.offsets.length : ℚ)) ≠ 0 := by
      have := List.length_pos.mpr hne
      positivity
    field_simp

/-- Witness for C7 at the two-pixel footprint `[0, 1]` and the constant
line 3. -/
theorem C7_binary_kernel_uniform_witness :
    convPathOf (GeneralConvolution true true true ⟨[0, 1], [1, 1]⟩ (fun _ => 3)) =
        some .uniformPath ∧
    convValueAt (GeneralConvolution true true true ⟨[0, 1], [1, 1]⟩ (fun _ => 3)) 0 =
        some (uniformLine [0, 1] (fun _ => 3) 0) ∧
    generalConvLine ⟨[0, 1], [1, 1]⟩ (fun _ => 3) 0 =
      ((([0, 1] : List ℤ).length : ℚ)) * uniformLine [0, 1] (fun _ => 3) 0 :=
  C7_binary_kernel_uniform true true ⟨[0, 1], [1, 1]⟩ (fun _ => 3) 0 rfl rfl (by rfl)
    (by simp)

/-- Counterexample to C7 as stated: for the binary kernel with footprint
`{0, 1}` on the line that is 2 at index 1 and 0 elsewhere, the dispatched
uniform path yields 1 (the mean) at index 0, while the general weighted path
for the same kernel yields 2 (the sum) — the fast path is NOT numerically
equal to the general path. -/
theorem C7_binary_kernel_uniform_counterexample :
    convValueAt
        (GeneralConvolution true true true ⟨[0, 1], [1, 1]⟩
          (fun t => if t = 1 then 2 else 0))
        0 = some 1 ∧
    generalConvLine ⟨[0, 1], [1, 1]⟩ (fun t => if t = 1 then 2 else 0) 0 = 2 ∧
    (1 : ℚ) ≠ 2 := by
  refine ⟨?_, ?_, by norm_num⟩
  · norm_num [GeneralConvolution, convValueAt, uniformLine, Finset.sum_range_succ]
  · norm_num [generalConvLine, Finset.sum_range_succ]

/-! ## Frequency-domain convolution -/

lemma expandedFilter_isReal (inImg filt : FTImage) :
    (expandedFilter inImg filt).isReal = filt.isReal := by
  unfold expandedFilter expandDimensionality
  split <;> rfl

lemma expandedFilter_length (inImg filt : FTImage) :
    (expandedFilter inImg filt).sizes.length =
      max filt.sizes.length inImg.sizes.length := by
  unfold expandedFilter expandDimensionality
  split <;> simp <;> omega

/-- Claim C8: in every successful `ConvolveFT` call, the `real` flag is true
at the final inverse transform exactly when both operands were supplied in
spatial representation with real sample types; when the output
representation is spatial the inverse transform receives the "real" option
exactly when the flag is true (and no inverse transform runs otherwise). -/
theorem C8_convolveft_real_flag (inImg filt : FTImage) (inRep filterRep outRep : String)
    (tr : ConvolveFTTrace) (h : ConvolveFT inImg filt inRep filterRep outRep = .ok tr) :
    (tr.real = true ↔
      (inRep = "spatial" ∧ filterRep = "spatial" ∧
        inImg.isReal = true ∧ filt.isReal = true)) ∧
    tr.inverseRealOption = (if outRep = "spatial" then some tr.real else none) := by
  unfold ConvolveFT at h
  repeat' split at h
  all_goals first
    | (rw [Except.ok.injEq] at h
       subst h
       refine ⟨?_, ?_⟩
       · unfold convolveFTReal
         by_cases h1 : inRep = "spatial" <;> by_cases h2 : filterRep = "spatial" <;>
           simp_all [expandedFilter_isReal, Bool.and_eq_true]
       · simp_all)
    | exact absurd h (by simp)

/-- Witness for C8: two real spatial 1-D operands of extent 2 give a
successful call whose trace has `real = true` and a real inverse. -/
theorem C8_convolveft_real_flag_witness :
    ((⟨true, some [2], some true⟩ : ConvolveFTTrace).real = true ↔
      ("spatial" = "spatial" ∧ "spatial" = "spatial" ∧
        (⟨true, [2], true⟩ : FTImage).isReal = true ∧
        (⟨true, [2], true⟩ : FTImage).isReal = true)) ∧
    (⟨true, some [2], some true⟩ : ConvolveFTTrace).inverseRealOption =
      (if "spatial" = "spatial" then
        some (⟨true, some [2], some true⟩ : ConvolveFTTrace).real else none) :=
  C8_convolveft_real_flag ⟨true, [2], true⟩ ⟨true, [2], true⟩ "spatial" "spatial" "spatial"
    ⟨true, some [2], some true⟩ (by rfl)

lemma convolveFT_error_iff (inImg filt : FTImage) (r1 r2 r3 : String)
    (hin : inImg.forged = true) (hf : filt.forged = true) :
    ConvolveFT inImg filt r1 r2 r3 = .error "Sizes do not match" ↔
      ¬ uarrayLe (expandedFilter inImg filt).sizes inImg.sizes := by
  unfold ConvolveFT
  rw [if_neg (by simp [hin]), if_neg (by simp [hf])]
  constructor
  · intro h
    by_contra hc
    rw [if_neg (not_not_intro hc)] at h
    exact absurd h (by simp)
  · intro h
    rw [if_pos h]

lemma not_uarrayLe_iff (inImg filt : FTImage) :
    ¬ uarrayLe (expandedFilter inImg filt).sizes inImg.sizes ↔
      (inImg.sizes.length < filt.sizes.length ∨
        ∃ i ∈ Finset.range inImg.sizes.length,
          inImg.sizes.getD i 0 < (expandedFilter inImg filt).sizes.getD i 0) := by
  by_cases hc : filt.sizes.length ≤ inImg.sizes.length
  · have hE : (expandedFilter inImg filt).sizes.length = inImg.sizes.length := by
      rw [expandedFilter_length]
      omega
    have hnot : ¬ (inImg.sizes.length < filt.sizes.length) := by omega
    unfold uarrayLe
    rw [hE]
    simp only [hnot, false_or, eq_self_iff_true, true_and]
    push_neg
    rfl
  · have hE : (expandedFilter inImg filt).sizes = filt.sizes := by
      unfold expandedFilter
      rw [if_neg (by omega)]
    unfold uarrayLe
    rw [hE]
    constructor
    · intro _
      exact .inl (by omega)
    · intro _ hand
      exact absurd hand.1 (by omega)

/-- Claim C9 (amended): for forged operands, `ConvolveFT` expands a
lower-dimensional filter by appending trailing singleton dimensions; it then
fails with the size-mismatch error if and only if the filter has MORE
dimensions than the input (the array comparison is false on differing
dimensionalities) or the (expanded) filter's extent exceeds the input's in
some dimension; on success, a spatial filter is forward-transformed only
after having been padded to the input's sizes. -/
theorem C9_filter_size_check (inImg filt : FTImage) (inRep filterRep outRep : String)
    (hin : inImg.forged = true) (hf : filt.forged = true) :
    (filt.sizes.length < inImg.sizes.length →
      (expandedFilter inImg filt).sizes =
        filt.sizes ++ List.replicate (inImg.sizes.length - filt.sizes.length) 1) ∧
    (ConvolveFT inImg filt inRep filterRep outRep = .error "Sizes do not match" ↔
      (inImg.sizes.length < filt.sizes.length ∨
        ∃ i ∈ Finset.range inImg.sizes.length,
          inImg.sizes.getD i 0 < (expandedFilter inImg filt).sizes.getD i 0)) ∧
    (∀ tr, ConvolveFT inImg filt inRep filterRep outRep = .ok tr →
      filterRep = "spatial" → tr.filterForwardSizes = some inImg.sizes) := by
  refine ⟨fun hlow => ?_, ?_, fun tr htr h2 => ?_⟩
  · unfold expandedFilter expandDimensionality
    rw [if_pos hlow]
  · rw [convolveFT_error_iff _ _ _ _ _ hin hf, not_uarrayLe_iff]
  · unfold ConvolveFT at htr
    repeat' split at htr
    all_goals first
      | (rw [Except.ok.injEq] at htr
         subst htr
         simp_all)
      | exact absurd htr (by simp)

/-- Witness for C9: a 1-D filter of extent 7 against a 1-D input of extent 5
fails with the size-mismatch error. -/
theorem C9_filter_size_check_witness :
    ConvolveFT ⟨true, [5], true⟩ ⟨true, [7], true⟩ "spatial" "spatial" "spatial" =
      .error "Sizes do not match" :=
  ((C9_filter_size_check ⟨true, [5], true⟩ ⟨true, [7], true⟩ "spatial" "spatial" "spatial"
      rfl rfl).2.1).mpr
    (.inr ⟨0, by decide, by norm_num [expandedFilter, expandDimensionality]⟩)

/-- Counterexample to C9 as stated: a 2-D filter of sizes `[1, 1]` against a
1-D input of sizes `[5]` fails with the size-mismatch error although no
extent of the filter exceeds any extent of the input — the failure is caused
by the dimensionality difference alone, which the claim's iff does not
allow. -/
theorem C9_filter_size_check_counterexample :
    ConvolveFT ⟨true, [5], true⟩ ⟨true, [1, 1], true⟩ "spatial" "spatial" "spatial" =
        .error "Sizes do not match" ∧
    (∀ s ∈ ([1, 1] : List ℕ), s = 1) ∧ (∀ s ∈ ([5] : List ℕ), 1 ≤ s) := by
  refine ⟨by rfl, by decide, by decide⟩

/-- Claim C10: each representation parameter of `ConvolveFT` is compared only
against the exact string "spatial": the call behaves identically when every
other string is replaced by "frequency", and the error outcome does not
depend on the representation strings at all — no validation error is ever
raised for an unrecognized representation. -/
theorem C10_representation_strings (inImg filt : FTImage) (r1 r2 r3 : String) :
    ConvolveFT inImg filt r1 r2 r3 =
      ConvolveFT inImg filt (canonRep r1) (canonRep r2) (canonRep r3) ∧
    ftErrorOf (ConvolveFT inImg filt r1 r2 r3) =
      ftErrorOf (ConvolveFT inImg filt "frequency" "frequency" "frequency") := by
  have hc : ∀ s, (canonRep s = "spatial") = (s = "spatial") := by
    intro s
    unfold canonRep
    by_cases h : s = "spatial" <;> simp [h]
  constructor
  · unfold ConvolveFT convolveFTReal
    simp only [hc]
  · unfold ConvolveFT convolveFTReal ftErrorOf
    by_cases h1 : inImg.forged = false <;> simp only [h1, reduceIte, Bool.false_eq_true]
    by_cases h2 : filt.forged = false <;> simp only [h2, reduceIte, Bool.false_eq_true]
    by_cases h3 : ¬ uarrayLe (expandedFilter inImg filt).sizes inImg.sizes <;>
      simp [h3]

end DiplibConv
